import Mathlib

/-!
Verification of the mark CLI argument pipeline.

This file is a shallow embedding, in Lean, of the command-line front end of
the mark CLI repository:

* the tokenizer and path resolver of the function parseArgs in src/cli.ts,
* the field binder parseFromSchema and the coercion helper coerceValue
  in src/parse.ts,
* the dispatch logic of run in src/cli.ts, tryClientMode in
  src/client-mode.ts and isServerAlive in src/lockfile.ts.

JavaScript runtime values that flow through the parser are modelled by the
inductive type JSVal.  The host functions Number, String.prototype.trim and
JSON.parse are modelled by executable Lean functions (jsNumber, jsTrim,
jsonTryParse) that follow the ECMAScript conversion grammars; JavaScript
numbers are modelled exactly (as rationals plus NaN and signed infinity),
so there is no floating-point rounding in the model, which none of the
verified properties depend on.  Effects of the dispatch layer (process
probe, remote call, local handler execution, output) are modelled by an
explicit environment (Env), a file-system state carrying the lockfile
(FsState) and an Outcome record collecting what one invocation did.
-/

/-! ## Character and string helpers (models of the JS string primitives) -/

/-- Model of the JS test s.startsWith(c) for a one-character prefix. -/
def startsWithCh (s : String) (c : Char) : Bool :=
  match s.data with
  | [] => false
  | c0 :: _ => c0 = c

/-- Model of the JS test s.endsWith(c) for a one-character suffix. -/
def endsWithCh (s : String) (c : Char) : Bool :=
  match s.data.reverse with
  | [] => false
  | c0 :: _ => c0 = c

/-- Model of the JS test s.startsWith that checks for a leading double dash. -/
def startsDashDash (s : String) : Bool :=
  match s.data with
  | c0 :: c1 :: _ => c0 = '-' ∧ c1 = '-'
  | _ => false

/-- Model of JS s.length (code units; all CLI tokens here are ASCII). -/
def strLen (s : String) : Nat := s.data.length

/-- Model of JS s.slice(n) for nonnegative n. -/
def strDrop (s : String) (n : Nat) : String := ⟨s.data.drop n⟩

/-- Model of the JS regex test /^\d+$/.test(s). -/
def isDigits (s : String) : Bool := !s.data.isEmpty && s.data.all Char.isDigit

/-- Model of the JS test s.includes(c) for one character. -/
def containsCh (s : String) (c : Char) : Bool := s.data.any (· = c)

/-- The whitespace class trimmed by JS String.prototype.trim and by the
Number conversion (the common members; all are outside ASCII CLI input). -/
def isJsWs (c : Char) : Bool :=
  c = ' ' ∨ c = '\t' ∨ c = '\n' ∨ c = '\r' ∨ c = '\x0b' ∨ c = '\x0c' ∨
  c.toNat = 0xA0 ∨ c.toNat = 0xFEFF

/-- Strip leading and trailing JS whitespace from a character list. -/
def trimChars (cs : List Char) : List Char :=
  ((cs.dropWhile isJsWs).reverse.dropWhile isJsWs).reverse

/-- Model of JS String.prototype.trim. -/
def jsTrim (s : String) : String := ⟨trimChars s.data⟩

/-! ## JS numbers and the Number conversion -/

/-- A JavaScript number as far as the CLI parser observes it: NaN, a signed
infinity, or an exact finite value.  Finite values are exact rationals, so
the model has no rounding; no verified property depends on rounding. -/
inductive JSNum where
  | nan : JSNum
  | inf (neg : Bool) : JSNum
  | fin (q : ℚ) : JSNum
  deriving DecidableEq

/-- Numeric value of a decimal digit. -/
def digitVal (c : Char) : Nat := c.toNat - '0'.toNat

/-- Value of a list of decimal digits. -/
def digitsToNat (cs : List Char) : Nat :=
  cs.foldl (fun a c => a * 10 + digitVal c) 0

/-- Hex digit test, as in the StrNumericLiteral grammar. -/
def isHexDigit (c : Char) : Bool :=
  c.isDigit ∨ ('a' ≤ c ∧ c ≤ 'f') ∨ ('A' ≤ c ∧ c ≤ 'F')

/-- Value of a hex digit. -/
def hexVal (c : Char) : Nat :=
  if c.isDigit then digitVal c
  else if 'a' ≤ c ∧ c ≤ 'f' then c.toNat - 'a'.toNat + 10
  else c.toNat - 'A'.toNat + 10

/-- Value of a list of digits in a given base. -/
def radixToNat (base : Nat) (cs : List Char) : Nat :=
  cs.foldl (fun a c => a * base + hexVal c) 0

/-- Digit test for a given base (2, 8 or 16; base 10 is not routed here). -/
def isRadixDigit (base : Nat) (c : Char) : Bool :=
  if base = 16 then isHexDigit c
  else if base = 8 then '0' ≤ c ∧ c ≤ '7'
  else c = '0' ∨ c = '1'

/-- Parse the ExponentPart digits (after the e/E) of a decimal literal. -/
def parseExponent (cs : List Char) : Option Int :=
  match cs with
  | '+' :: ds => if !ds.isEmpty ∧ ds.all Char.isDigit then some (digitsToNat ds : Int) else none
  | '-' :: ds => if !ds.isEmpty ∧ ds.all Char.isDigit then some (-(digitsToNat ds : Int)) else none
  | ds => if !ds.isEmpty ∧ ds.all Char.isDigit then some (digitsToNat ds : Int) else none

/-- Parse the mantissa (digits, optional dot, digits) of a decimal literal;
at least one digit must be present. -/
def parseMantissa (cs : List Char) : Option ℚ :=
  let intPart := cs.takeWhile Char.isDigit
  let rest := cs.dropWhile Char.isDigit
  match rest with
  | [] => if intPart.isEmpty then none else some (digitsToNat intPart : ℚ)
  | '.' :: frac =>
    if frac.all Char.isDigit ∧ (!intPart.isEmpty ∨ !frac.isEmpty) then
      some ((digitsToNat intPart : ℚ) + (digitsToNat frac : ℚ) / ((10 : ℚ) ^ frac.length))
    else none
  | _ => none

/-- Exponent marker test. -/
def isExpChar (c : Char) : Bool := c = 'e' ∨ c = 'E'

/-- Parse an unsigned StrUnsignedDecimalLiteral: Infinity, or a decimal
mantissa with an optional exponent.  The whole input must be consumed. -/
def parseUnsignedStrNum (cs : List Char) : Option JSNum :=
  if cs = "Infinity".data then some (.inf false)
  else
    match cs.findIdx? isExpChar with
    | some i =>
      match parseMantissa (cs.take i), parseExponent (cs.drop (i + 1)) with
      | some m, some e => some (.fin (m * (10 : ℚ) ^ e))
      | _, _ => none
    | none => (parseMantissa cs).map .fin

/-- Negate a JS number (used for a leading minus sign). -/
def negJSNum : JSNum → JSNum
  | .nan => .nan
  | .inf b => .inf (!b)
  | .fin q => .fin (-q)

/-- Parse a whole (already trimmed, nonempty) StrNumericLiteral: an
optionally signed decimal literal, or an unsigned 0x/0o/0b literal. -/
def parseStrNum (cs : List Char) : Option JSNum :=
  match cs with
  | '+' :: rest => parseUnsignedStrNum rest
  | '-' :: rest => (parseUnsignedStrNum rest).map negJSNum
  | '0' :: 'x' :: ds => if !ds.isEmpty ∧ ds.all isHexDigit then some (.fin (radixToNat 16 ds : ℚ)) else none
  | '0' :: 'X' :: ds => if !ds.isEmpty ∧ ds.all isHexDigit then some (.fin (radixToNat 16 ds : ℚ)) else none
  | '0' :: 'o' :: ds => if !ds.isEmpty ∧ ds.all (isRadixDigit 8) then some (.fin (radixToNat 8 ds : ℚ)) else none
  | '0' :: 'O' :: ds => if !ds.isEmpty ∧ ds.all (isRadixDigit 8) then some (.fin (radixToNat 8 ds : ℚ)) else none
  | '0' :: 'b' :: ds => if !ds.isEmpty ∧ ds.all (isRadixDigit 2) then some (.fin (radixToNat 2 ds : ℚ)) else none
  | '0' :: 'B' :: ds => if !ds.isEmpty ∧ ds.all (isRadixDigit 2) then some (.fin (radixToNat 2 ds : ℚ)) else none
  | _ => parseUnsignedStrNum cs

/-- Model of the JS conversion Number(s) on a string: trim, empty gives 0,
otherwise the StrNumericLiteral grammar, and NaN when it fails. -/
def jsNumber (s : String) : JSNum :=
  let t := trimChars s.data
  if t.isEmpty then .fin 0
  else
    match parseStrNum t with
    | some n => n
    | none => .nan

/-! ## JSON values and a model of JSON.parse -/

/-- A parsed JSON document, as produced by the model of JSON.parse.
Object fields keep their textual order. -/
inductive JsonVal where
  | null : JsonVal
  | bool (b : Bool) : JsonVal
  | num (q : ℚ) : JsonVal
  | str (s : String) : JsonVal
  | arr (elems : List JsonVal) : JsonVal
  | obj (fields : List (String × JsonVal)) : JsonVal

/-- JSON insignificant whitespace. -/
def isJsonWs (c : Char) : Bool :=
  c = ' ' ∨ c = '\t' ∨ c = '\n' ∨ c = '\r'

/-- Skip JSON whitespace. -/
def skipWs (cs : List Char) : List Char := cs.dropWhile isJsonWs

/-- Decode one JSON string escape; returns the character and the rest. -/
def jsonEscape (cs : List Char) : Option (Char × List Char) :=
  match cs with
  | '"' :: r => some ('"', r)
  | '\\' :: r => some ('\\', r)
  | '/' :: r => some ('/', r)
  | 'b' :: r => some ('\x08', r)
  | 'f' :: r => some ('\x0c', r)
  | 'n' :: r => some ('\n', r)
  | 'r' :: r => some ('\r', r)
  | 't' :: r => some ('\t', r)
  | 'u' :: a :: b :: c :: d :: r =>
    if isHexDigit a ∧ isHexDigit b ∧ isHexDigit c ∧ isHexDigit d then
      some (Char.ofNat (radixToNat 16 [a, b, c, d]), r)
    else none
  | _ => none

/-- Parse the body of a JSON string after the opening quote, with fuel. -/
def jsonString (fuel : Nat) (cs : List Char) : Option (String × List Char) :=
  match fuel with
  | 0 => none
  | fuel + 1 =>
    match cs with
    | [] => none
    | '"' :: r => some ("", r)
    | '\\' :: r =>
      match jsonEscape r with
      | some (c, r2) =>
        match jsonString fuel r2 with
        | some (s, r3) => some (⟨c :: s.data⟩, r3)
        | none => none
      | none => none
    | c :: r =>
      match jsonString fuel r with
      | some (s, r2) => some (⟨c :: s.data⟩, r2)
      | none => none

/-- Parse a JSON number (sign, digits, optional fraction and exponent). -/
def jsonNumber (cs : List Char) : Option (ℚ × List Char) :=
  let (neg, cs1) := match cs with
    | '-' :: r => (true, r)
    | _ => (false, cs)
  let intPart := cs1.takeWhile Char.isDigit
  let cs2 := cs1.dropWhile Char.isDigit
  if intPart.isEmpty then none
  else
    let (mant, cs3) : ℚ × List Char :=
      match cs2 with
      | '.' :: r =>
        let frac := r.takeWhile Char.isDigit
        ((digitsToNat intPart : ℚ) + (digitsToNat frac : ℚ) / ((10 : ℚ) ^ frac.length),
          r.dropWhile Char.isDigit)
      | _ => ((digitsToNat intPart : ℚ), cs2)
    let (val, cs4) : Option ℚ × List Char :=
      match cs3 with
      | e :: r =>
        if isExpChar e then
          match parseExponent (r.takeWhile (fun c => c.isDigit ∨ c = '+' ∨ c = '-')) with
          | some ex => (some (mant * (10 : ℚ) ^ ex), r.dropWhile (fun c => c.isDigit ∨ c = '+' ∨ c = '-'))
          | none => (none, cs3)
        else (some mant, cs3)
      | [] => (some mant, cs3)
    match val with
    | some v => some (if neg then -v else v, cs4)
    | none => none

mutual

/-- Parse one JSON value, with fuel. -/
def jpValue (fuel : Nat) (cs : List Char) : Option (JsonVal × List Char) :=
  match fuel with
  | 0 => none
  | fuel + 1 =>
    match cs with
    | [] => none
    | c :: r =>
      if c = 'n' then
        if r.take 3 = "ull".data then some (.null, r.drop 3) else none
      else if c = 't' then
        if r.take 3 = "rue".data then some (.bool true, r.drop 3) else none
      else if c = 'f' then
        if r.take 4 = "alse".data then some (.bool false, r.drop 4) else none
      else if c = '"' then
        match jsonString fuel r with
        | some (s, r2) => some (.str s, r2)
        | none => none
      else if c = '[' then
        match skipWs r with
        | ']' :: r2 => some (.arr [], r2)
        | r2 =>
          match jpElems fuel r2 with
          | some (es, r3) =>
            match skipWs r3 with
            | ']' :: r4 => some (.arr es, r4)
            | _ => none
          | none => none
      else if c = '\x7b' then
        match skipWs r with
        | '\x7d' :: r2 => some (.obj [], r2)
        | r2 =>
          match jpFields fuel r2 with
          | some (fs, r3) =>
            match skipWs r3 with
            | '\x7d' :: r4 => some (.obj fs, r4)
            | _ => none
          | none => none
      else
        match jsonNumber cs with
        | some (q, r2) => some (.num q, r2)
        | none => none

/-- Parse a comma-separated list of JSON values, with fuel. -/
def jpElems (fuel : Nat) (cs : List Char) : Option (List JsonVal × List Char) :=
  match fuel with
  | 0 => none
  | fuel + 1 =>
    match jpValue fuel (skipWs cs) with
    | some (v, r) =>
      match skipWs r with
      | ',' :: r2 =>
        match jpElems fuel r2 with
        | some (vs, r3) => some (v :: vs, r3)
        | none => none
      | r2 => some ([v], r2)
    | none => none

/-- Parse a comma-separated list of JSON object members, with fuel. -/
def jpFields (fuel : Nat) (cs : List Char) : Option (List (String × JsonVal) × List Char) :=
  match fuel with
  | 0 => none
  | fuel + 1 =>
    match skipWs cs with
    | '"' :: r =>
      match jsonString fuel r with
      | some (k, r2) =>
        match skipWs r2 with
        | ':' :: r3 =>
          match jpValue fuel (skipWs r3) with
          | some (v, r4) =>
            match skipWs r4 with
            | ',' :: r5 =>
              match jpFields fuel r5 with
              | some (fs, r6) => some ((k, v) :: fs, r6)
              | none => none
            | r5 => some ([(k, v)], r5)
          | none => none
        | _ => none
      | none => none
    | _ => none

end

/-- Model of JSON.parse: parse one value, demand the rest to be blank,
return none where the host function would throw. -/
def jsonTryParse (s : String) : Option JsonVal :=
  match jpValue (s.data.length + 1) (skipWs s.data) with
  | some (v, rest) => if (skipWs rest).isEmpty then some v else none
  | none => none

/-! ## CLI runtime values and the value coercion of src/parse.ts -/

/-- A JavaScript runtime value as the CLI parser sees it: the undefined and
null constants, booleans, numbers, strings, and parsed JSON structures. -/
inductive JSVal where
  | undefined : JSVal
  | null : JSVal
  | bool (b : Bool) : JSVal
  | num (n : JSNum) : JSVal
  | str (s : String) : JSVal
  | json (j : JsonVal) : JSVal

/-- Model of JS truthiness for the values above. -/
def jsTruthy : JSVal → Bool
  | .undefined => false
  | .null => false
  | .bool b => b
  | .num .nan => false
  | .num (.fin q) => q ≠ 0
  | .num (.inf _) => true
  | .str s => s ≠ ""
  | .json _ => true

/-- String test used by the typeof dispatch in coerceValue. -/
def isStringV : JSVal → Bool
  | .str _ => true
  | _ => false

/-- The brace/bracket boundedness test of coerceValue:
(value.startsWith and value.endsWith on each pair). -/
def jsonBraced (s : String) : Bool :=
  (startsWithCh s '\x7b' && endsWithCh s '\x7d') ||
  (startsWithCh s '[' && endsWithCh s ']')

/-- Shallow embedding of coerceValue from src/parse.ts: pass through
undefined, null and non-strings; map the literal strings for the booleans;
map fully numeric strings through Number; parse brace- or bracket-bounded
strings as JSON, keeping the string when the parse fails; leave every
other string unchanged. -/
def coerceValue (value : JSVal) : JSVal :=
  match value with
  | .undefined => .undefined
  | .null => .null
  | .str s =>
    if s = "true" then .bool true
    else if s = "false" then .bool false
    else
      let num := jsNumber s
      if num ≠ .nan ∧ jsTrim s ≠ "" then .num num
      else if jsonBraced s then
        match jsonTryParse s with
        | some j => .json j
        | none => .str s
      else .str s
  | v => v

/-! ## Association-list model of plain JS objects -/

/-- Lookup in an insertion-ordered object. -/
def aGet {α : Type} (m : List (String × α)) (k : String) : Option α :=
  (m.find? (fun p => p.1 == k)).map (·.2)

/-- Property assignment on an insertion-ordered object: overwrite the
existing key in place, or append a fresh key at the end. -/
def aSet {α : Type} (m : List (String × α)) (k : String) (v : α) : List (String × α) :=
  match m with
  | [] => [(k, v)]
  | p :: rest => if p.1 == k then (k, v) :: rest else p :: aSet rest k v

/-- The delete operator on an insertion-ordered object. -/
def aDel {α : Type} (m : List (String × α)) (k : String) : List (String × α) :=
  m.filter (fun p => !(p.1 == k))

/-! ## The metadata model and the field binder of src/parse.ts -/

/-- CLI metadata attached to a procedure (CLIMeta in src/parse.ts).  The
optional args and shorts records are modelled with their absent case
collapsed to the empty default, exactly as parseFromSchema reads them. -/
structure CLIMeta where
  description : Option String := none
  args : List String := []
  shorts : List (String × String) := []
  output : Option String := none
  interactive : Bool := false

/-- The gluegun-shaped parameters record; parseFromSchema reads only the
positional array and the options object. -/
structure Parameters where
  array : List String := []
  options : List (String × JSVal) := []

/-- Model of toKebab is not needed by the verified claims; the kebab to
camel conversion of parseFromSchema is.  It models the JS replace with the
global regex dash-lowercase-letter, uppercasing the captured letter. -/
def kebabChars : List Char → List Char
  | [] => []
  | '-' :: c :: rest =>
    if 'a' ≤ c ∧ c ≤ 'z' then c.toUpper :: kebabChars rest
    else '-' :: kebabChars (c :: rest)
  | c :: rest => c :: kebabChars rest

/-- Kebab-case to camelCase, as in the flag binding of parseFromSchema. -/
def kebabToCamel (s : String) : String := ⟨kebabChars s.data⟩

/-- The positional loop of parseFromSchema: walk the declared positional
field names and the positional tokens in parallel, coercing and binding
while both lists last (the undefined check of the source skips exactly the
fields beyond the token count). -/
def bindPosAux (input : List (String × JSVal)) :
    List String → List String → List (String × JSVal)
  | [], _ => input
  | _ :: _, [] => input
  | f :: fs, v :: vs => bindPosAux (aSet input f (coerceValue (.str v))) fs vs

/-- The reverse short-flag lookup built by parseFromSchema
(field-to-alias entries become alias-to-field entries, later wins). -/
def buildShortToField (shorts : List (String × String)) : List (String × String) :=
  shorts.foldl (fun m p => aSet m p.2 p.1) []

/-- The non-short fallback of the canonical field name resolution: kebab
keys are converted to camelCase, other keys pass verbatim. -/
def fallbackName (k : String) : String :=
  if containsCh k '-' then kebabToCamel k else k

/-- Shallow embedding of parseFromSchema from src/parse.ts: bind the
positional tokens to the declared positional fields, then fold the flag
entries, skipping a flag whose key names an already bound positional
field, resolving the canonical field name (short alias, then kebab to
camel, then verbatim; the empty field name is falsy in the source
condition and falls through to the fallback) and binding the coerced
value under it. -/
def parseFromSchema (params : Parameters) (meta : CLIMeta) : List (String × JSVal) :=
  let positionalArgs := meta.args
  let input0 := bindPosAux [] positionalArgs params.array
  let shortToField := buildShortToField meta.shorts
  params.options.foldl (fun input kv =>
    if positionalArgs.contains kv.1 ∧ (aGet input kv.1).isSome then input
    else
      let field :=
        match aGet shortToField kv.1 with
        | some f => if f = "" then fallbackName kv.1 else f
        | none => fallbackName kv.1
      aSet input field (coerceValue kv.2)) input0

/-- The canonical field name resolution as the specification words it:
a key that matches a declared short-flag alias maps to that field,
otherwise a key containing a hyphen is converted kebab-to-camelCase,
otherwise the key is used verbatim.  This definition follows the
specification text and is compared against parseFromSchema. -/
def resolveFieldSpec (shorts : List (String × String)) (k : String) : String :=
  match shorts.find? (fun p => p.2 == k) with
  | some p => p.1
  | none => fallbackName k

/-! ## Procedures, path resolution and the tokenizer of src/cli.ts -/

/-- A registered procedure as the CLI consumes it: an addressing path,
CLI metadata, and an optional input schema modelled by its parse
behaviour (normalised value or thrown message). -/
structure Procedure where
  path : List String
  meta : CLIMeta := {}
  inputParse : Option (List (String × JSVal) → Except String (List (String × JSVal))) := none

/-- findProcedure from src/cli.ts: the procedure whose path equals the
given path (same length, equal segment by segment). -/
def findProcedure (procedures : List Procedure) (path : List String) : Option Procedure :=
  procedures.find? (fun p => p.path == path)

/-- findChildren from src/cli.ts: the procedures whose path strictly
extends the given path. -/
def findChildren (procedures : List Procedure) (path : List String) : List Procedure :=
  procedures.filter (fun p => path.length < p.path.length && path.isPrefixOf p.path)

/-- The first loop of parseArgs: collect path segments, stopping at the
first flag-looking token; a segment completing an exact procedure path is
committed and ends the scan; a segment that is a strict prefix of some
procedure path is committed and the scan continues; an unknown first
segment is committed unconditionally; otherwise the scan ends before the
segment. -/
def scanPath (procs : List Procedure) (path : List String) :
    List String → List String × List String
  | [] => (path, [])
  | t :: rest =>
    if startsWithCh t '-' then (path, t :: rest)
    else
      let testPath := path ++ [t]
      if (findProcedure procs testPath).isSome then (testPath, rest)
      else if !(findChildren procs testPath).isEmpty then scanPath procs testPath rest
      else if path.isEmpty then scanPath procs testPath rest
      else (path, t :: rest)

/-- Split a long flag token at its first equals sign: the key is the slice
between the double dash and the equals sign, the value the slice after. -/
def eqSplitLong (t : String) : Option (String × String) :=
  match t.data.findIdx? (fun c => c = '=') with
  | some i => some (⟨(t.data.drop 2).take (i - 2)⟩, ⟨t.data.drop (i + 1)⟩)
  | none => none

/-- The second loop of parseArgs: classify the tokens after the path into
positional tokens and a flags object.  A long flag with an equals sign
carries its value; a long flag without one consumes the next token as its
value unless that token looks like a flag or is one of the literals true
and false or all digits, in which case the flag becomes boolean true and
the token stays in the stream; a two-character short flag consumes the
next token unless it looks like a flag; every other token is positional. -/
def classifyAux (args : List String) (opts : List (String × JSVal)) :
    List String → List String × List (String × JSVal)
  | [] => (args, opts)
  | t :: rest =>
    if startsDashDash t then
      match eqSplitLong t with
      | some (k, v) => classifyAux args (aSet opts k (.str v)) rest
      | none =>
        let k := strDrop t 2
        match rest with
        | next :: rest2 =>
          if startsWithCh next '-' = false then
            if next ≠ "true" ∧ next ≠ "false" ∧ isDigits next = false then
              classifyAux args (aSet opts k (.str next)) rest2
            else classifyAux args (aSet opts k (.bool true)) (next :: rest2)
          else classifyAux args (aSet opts k (.bool true)) (next :: rest2)
        | [] => (args, aSet opts k (.bool true))
    else if startsWithCh t '-' && strLen t == 2 then
      let k := strDrop t 1
      match rest with
      | next :: rest2 =>
        if startsWithCh next '-' = false then
          classifyAux args (aSet opts k (.str next)) rest2
        else classifyAux args (aSet opts k (.bool true)) (next :: rest2)
      | [] => (args, aSet opts k (.bool true))
    else classifyAux (args ++ [t]) opts rest

/-- The result of parseArgs. -/
structure Parsed where
  path : List String
  args : List String
  options : List (String × JSVal)

/-- Shallow embedding of parseArgs from src/cli.ts: scan the path, then
classify the remaining tokens. -/
def parseArgs (argv : List String) (procs : List Procedure) : Parsed :=
  let pr := scanPath procs [] argv
  let co := classifyAux [] [] pr.2
  ⟨pr.1, co.1, co.2⟩

/-! ## The dispatch layer: lockfile, client mode and run -/

/-- The persisted server handle (the lockfile contents read by
src/lockfile.ts); the CLI dispatch reads the process id and endpoint. -/
structure Lockfile where
  pid : Nat
  endpoint : String
  deriving DecidableEq

/-- The file-system state visible to the dispatch layer: the contents of
the server lockfile, or none when the file is absent. -/
structure FsState where
  lockfile : Option Lockfile
  deriving DecidableEq

/-- What the remote call would do if attempted: complete with a value,
complete reporting an application failure (the remote handler failed and
the transport surfaces it as a thrown error), or fail at transport level.
Both failure kinds reach tryClientMode as exceptions of the awaited
client call. -/
inductive RemoteOutcome where
  | ok (v : JSVal) : RemoteOutcome
  | appFailure (msg : String) : RemoteOutcome
  | transportFailure (msg : String) : RemoteOutcome

/-- The environment of one invocation: which process ids exist (the
signal-0 probe), what the remote call would report, what the local
handler execution would report, and what client.exec would report for a
raw procedure reference. -/
structure Env where
  pidAlive : Nat → Bool
  remote : RemoteOutcome
  localExec : Except String JSVal
  execResult : Except String JSVal

/-- Shallow embedding of isServerAlive from src/lockfile.ts: probe the
recorded process id; when the probe fails, delete the lockfile as a side
effect and report dead. -/
def isServerAliveM (env : Env) (lf : Lockfile) (st : FsState) : Bool × FsState :=
  if env.pidAlive lf.pid then (true, st) else (false, ⟨none⟩)

/-- Run the procedure input schema when there is one; the source calls
proc.input.parse inside a try block. -/
def validateInput (proc : Procedure) (input : List (String × JSVal)) :
    Except String (List (String × JSVal)) :=
  match proc.inputParse with
  | none => .ok input
  | some f => f input

/-- The result record of tryClientMode (success flag and remote result). -/
structure ClientResult where
  success : Bool
  result : JSVal

/-- Shallow embedding of tryClientMode from src/client-mode.ts, returning
the client-mode result (none where the source returns null), the
file-system state after the liveness probe, and whether the remote call
was reached.  The catch-all of the source maps every failure of the
remote call, application-level or transport-level, and every validation
throw, to null (fall back to local). -/
def tryClientModeM (env : Env) (st : FsState) (path args : List String)
    (options : List (String × JSVal)) (procs : List Procedure) :
    Option ClientResult × FsState × Bool :=
  match st.lockfile with
  | none => (none, st, false)
  | some lf =>
    let pr := isServerAliveM env lf st
    if pr.1 then
      match findProcedure procs path with
      | none => (none, pr.2, false)
      | some proc =>
        let input := parseFromSchema { array := args, options := options } proc.meta
        match validateInput proc input with
        | .error _ => (none, pr.2, false)
        | .ok _ =>
          match env.remote with
          | .ok v => (some ⟨true, v⟩, pr.2, true)
          | .appFailure _ => (none, pr.2, true)
          | .transportFailure _ => (none, pr.2, true)
    else (none, pr.2, false)

/-- What one CLI invocation did, as far as the verified claims observe it:
the process exit code, the error and info lines the claims inspect, which
large actions ran, whether the remote and the local handler execution
were reached, and the formatted result with its format tag. -/
structure Outcome where
  exitCode : Nat := 0
  errors : List String := []
  infos : List String := []
  versionShown : Bool := false
  serverStarted : Bool := false
  rootHelpShown : Bool := false
  helpShown : Bool := false
  jsonExeced : Bool := false
  remoteCalled : Bool := false
  localCalled : Bool := false
  formatted : Option (JSVal × JSVal) := none

/-- The valid values of the format override in run. -/
def isValidFormat (v : JSVal) : Bool :=
  match v with
  | .str s => s = "text" ∨ s = "json" ∨ s = "table" ∨ s = "streaming"
  | _ => false

/-- Truthiness of an option lookup (absent keys are undefined). -/
def jsTruthyOpt (o : Option JSVal) : Bool :=
  match o with
  | none => false
  | some v => jsTruthy v

/-- The string interpolation of a flag value into an error message (only
strings and booleans can occur as flag values here). -/
def jsDisplay : JSVal → String
  | .str s => s
  | .bool true => "true"
  | .bool false => "false"
  | .null => "null"
  | .undefined => "undefined"
  | .num _ => "number"
  | .json _ => "object"

/-- The output format chosen by run: the raw format override when the
flag is present (the source applies no validation at this point), else
the metadata hint, else text. -/
def chosenFormat (options : List (String × JSVal)) (meta : CLIMeta) : JSVal :=
  match aGet options "format" with
  | some v => v
  | none => .str (meta.output.getD "text")

/-- Metadata of the procedure at a path, or the empty record. -/
def metaOf (procs : List Procedure) (path : List String) : CLIMeta :=
  ((findProcedure procs path).map (·.meta)).getD {}

/-- The object membership test of the raw --json branch: the parsed value
is a non-null object carrying the procedure reference key. -/
def jsonHasProcKey : JsonVal → Bool
  | .obj fields => fields.any (fun p => p.1 == "$proc")
  | _ => false

/-- The part of run after the client-mode attempt: the raw --json branch,
root help, per-path help, procedure lookup with the unknown-command and
group cases, format validation, field binding, schema validation and the
local call.  remoteCalled records whether the earlier client-mode attempt
reached the remote call. -/
def runLocalStages (env : Env) (st : FsState) (procs : List Procedure)
    (path args : List String) (options : List (String × JSVal))
    (remoteCalled : Bool) : Outcome × FsState :=
  let jsonBranch : Option (Outcome × FsState) :=
    match aGet options "json" with
    | some (.str s) =>
      if s ≠ "" then
        match jsonTryParse s with
        | some j =>
          if jsonHasProcKey j then
            match env.execResult with
            | .ok v => some ({ jsonExeced := true, remoteCalled := remoteCalled,
                               formatted := some (v, .str "json") }, st)
            | .error e => some ({ exitCode := 1,
                                  errors := ["Failed to parse --json input: " ++ e],
                                  remoteCalled := remoteCalled }, st)
          else none
        | none => some ({ exitCode := 1,
                          errors := ["Failed to parse --json input"],
                          remoteCalled := remoteCalled }, st)
      else none
    | _ => none
  match jsonBranch with
  | some r => r
  | none =>
    if path.isEmpty then ({ rootHelpShown := true, remoteCalled := remoteCalled }, st)
    else if jsTruthyOpt (aGet options "help") || jsTruthyOpt (aGet options "h") then
      ({ helpShown := true, remoteCalled := remoteCalled }, st)
    else
      match findProcedure procs path with
      | none =>
        if !(findChildren procs path).isEmpty then
          ({ helpShown := true, remoteCalled := remoteCalled }, st)
        else
          ({ errors := ["Unknown command: mark " ++ String.intercalate " " path],
             infos := ["Run \x27mark --help\x27 for available commands."],
             remoteCalled := remoteCalled }, st)
      | some proc =>
        let fo := aGet options "format"
        if jsTruthyOpt fo && !(match fo with | some v => isValidFormat v | none => false) then
          ({ exitCode := 1,
             errors := ["Invalid format: " ++ jsDisplay ((fo).getD .undefined) ++
               ". Valid formats: text, json, table, streaming"],
             remoteCalled := remoteCalled }, st)
        else
          let options2 := aDel (aDel options "format") "f"
          let input := parseFromSchema { array := args, options := options2 } proc.meta
          match validateInput proc input with
          | .error e => ({ exitCode := 1, errors := ["Error: " ++ e],
                           remoteCalled := remoteCalled }, st)
          | .ok _ =>
            match env.localExec with
            | .ok v => ({ localCalled := true, remoteCalled := remoteCalled,
                          formatted := some (v, chosenFormat options proc.meta) }, st)
            | .error e => ({ exitCode := 1, errors := ["Error: " ++ e],
                             localCalled := true, remoteCalled := remoteCalled }, st)

/-- Shallow embedding of run from src/cli.ts: version and server-mode
early exits, argument parsing, the client-mode attempt (skipped under
--local, with an empty path, or when help is requested), remote success
reporting, and otherwise the local stages. -/
def runModel (env : Env) (st : FsState) (procs : List Procedure)
    (argv : List String) : Outcome × FsState :=
  if argv.contains "--version" || argv.contains "-v" then
    ({ versionShown := true, infos := ["mark v1.0.0"] }, st)
  else if argv.contains "--server" then
    ({ serverStarted := true }, st)
  else
    let pr := parseArgs argv procs
    if !(argv.contains "--local") && !pr.path.isEmpty
        && !(jsTruthyOpt (aGet pr.options "help"))
        && !(jsTruthyOpt (aGet pr.options "h")) then
      match tryClientModeM env st pr.path pr.args pr.options procs with
      | (some r, st2, rc) =>
        if r.success then
          ({ remoteCalled := rc,
             formatted := some (r.result, chosenFormat pr.options (metaOf procs pr.path)) }, st2)
        else runLocalStages env st2 procs pr.path pr.args pr.options rc
      | (none, st2, rc) => runLocalStages env st2 procs pr.path pr.args pr.options rc
    else runLocalStages env st procs pr.path pr.args pr.options false

/-! ## Supporting lemmas -/

/-- An exact procedure match at a path, as a test. -/
def isExact (procs : List Procedure) (p : List String) : Bool :=
  (findProcedure procs p).isSome

/-- A strict-prefix (group) match at a path, as a test. -/
def hasKids (procs : List Procedure) (p : List String) : Bool :=
  !(findChildren procs p).isEmpty

theorem digits_head_not_dash (s : String) (h : isDigits s = true) :
    startsWithCh s '-' = false := by
  unfold isDigits at h
  unfold startsWithCh
  cases hd : s.data with
  | nil => rfl
  | cons c cs =>
    rw [hd] at h
    simp at h
    obtain ⟨h1, -⟩ := h
    show decide (c = '-') = false
    simp only [decide_eq_false_iff_not]
    intro hc
    subst hc
    exact absurd h1 (by decide)

theorem not_dash_not_dashdash (s : String) (h : startsWithCh s '-' = false) :
    startsDashDash s = false := by
  unfold startsWithCh at h
  unfold startsDashDash
  cases hd : s.data with
  | nil => rfl
  | cons c cs =>
    rw [hd] at h
    simp at h
    cases cs with
    | nil => rfl
    | cons c1 cs1 => simp [h]

/-- Prefix invariant of the path scan: starting from an accumulated path
none of whose nonempty prefixes is an exact match and all of whose
prefixes of length at least two are strict prefixes of procedure paths,
the scan result satisfies: no proper nonempty prefix is an exact match
(the exact-match short circuit), and every prefix of length at least two
is an exact match or a strict prefix of some procedure path. -/
theorem scanPath_prefix_inv (procs : List Procedure) :
    ∀ (ts path : List String),
    (∀ k, 0 < k → k ≤ path.length → isExact procs (path.take k) = false) →
    (∀ k, 2 ≤ k → k ≤ path.length → hasKids procs (path.take k) = true) →
    ((∀ k, 0 < k → k < (scanPath procs path ts).1.length →
        isExact procs ((scanPath procs path ts).1.take k) = false) ∧
     (∀ k, 2 ≤ k → k ≤ (scanPath procs path ts).1.length →
        isExact procs ((scanPath procs path ts).1.take k) = true ∨
        hasKids procs ((scanPath procs path ts).1.take k) = true)) := by
  intro ts
  induction ts with
  | nil =>
    intro path hA hB
    constructor
    · intro k hk hlt
      exact hA k hk (Nat.le_of_lt hlt)
    · intro k h2 hle
      exact Or.inr (hB k h2 hle)
  | cons t rest ih =>
    intro path hA hB
    by_cases hdash : startsWithCh t '-' = true
    · rw [scanPath, if_pos hdash]
      constructor
      · intro k hk hlt
        exact hA k hk (Nat.le_of_lt hlt)
      · intro k h2 hle
        exact Or.inr (hB k h2 hle)
    · rw [scanPath, if_neg hdash]
      by_cases hex : (findProcedure procs (path ++ [t])).isSome = true
      · rw [if_pos hex]
        constructor
        · intro k hk hlt
          simp only [List.length_append, List.length_cons, List.length_nil] at hlt
          have hk' : k ≤ path.length := by omega
          rw [List.take_append_of_le_length hk']
          exact hA k hk hk'
        · intro k h2 hle
          simp only [List.length_append, List.length_cons, List.length_nil] at hle
          rcases Nat.lt_or_ge k (path.length + 1) with hlt | hge
          · have hk' : k ≤ path.length := by omega
            rw [List.take_append_of_le_length hk']
            exact Or.inr (hB k h2 hk')
          · have hk' : k = path.length + 1 := by omega
            subst hk'
            rw [List.take_of_length_le (by simp)]
            exact Or.inl (by simpa [isExact] using hex)
      · rw [if_neg hex]
        by_cases hkid : (!(findChildren procs (path ++ [t])).isEmpty) = true
        · rw [if_pos hkid]
          refine ih (path ++ [t]) ?_ ?_
          · intro k hk hle
            simp only [List.length_append, List.length_cons, List.length_nil] at hle
            rcases Nat.lt_or_ge k (path.length + 1) with hlt | hge
            · have hk' : k ≤ path.length := by omega
              rw [List.take_append_of_le_length hk']
              exact hA k hk hk'
            · have hk' : k = path.length + 1 := by omega
              subst hk'
              rw [List.take_of_length_le (by simp)]
              simpa [isExact] using hex
          · intro k h2 hle
            simp only [List.length_append, List.length_cons, List.length_nil] at hle
            rcases Nat.lt_or_ge k (path.length + 1) with hlt | hge
            · have hk' : k ≤ path.length := by omega
              rw [List.take_append_of_le_length hk']
              exact hB k h2 hk'
            · have hk' : k = path.length + 1 := by omega
              subst hk'
              rw [List.take_of_length_le (by simp)]
              simpa [hasKids] using hkid
        · rw [if_neg hkid]
          by_cases hemp : path.isEmpty = true
          · rw [if_pos hemp]
            have hpath : path = [] := by
              cases path with
              | nil => rfl
              | cons a l => simp at hemp
            subst hpath
            refine ih [t] ?_ ?_
            · intro k hk hle
              simp only [List.length_cons, List.length_nil] at hle
              have hk' : k = 1 := by omega
              subst hk'
              simpa [isExact] using hex
            · intro k h2 hle
              simp only [List.length_cons, List.length_nil] at hle
              omega
          · rw [if_neg hemp]
            constructor
            · intro k hk hlt
              exact hA k hk (Nat.le_of_lt hlt)
            · intro k h2 hle
              exact Or.inr (hB k h2 hle)

/-- The path scan consumes a prefix of its input: the result path extends
the accumulator by some leading chunk of the tokens, none of which looks
like a flag, and the leftover is the matching suffix. -/
theorem scanPath_consumes (procs : List Procedure) :
    ∀ (ts path : List String),
    ∃ n, (scanPath procs path ts).1 = path ++ ts.take n ∧
      (scanPath procs path ts).2 = ts.drop n ∧
      ∀ t ∈ ts.take n, startsWithCh t '-' = false := by
  intro ts
  induction ts with
  | nil =>
    intro path
    exact ⟨0, by simp [scanPath]⟩
  | cons t rest ih =>
    intro path
    by_cases hdash : startsWithCh t '-' = true
    · refine ⟨0, ?_⟩
      rw [scanPath, if_pos hdash]
      simp
    · rw [scanPath, if_neg hdash]
      by_cases hex : (findProcedure procs (path ++ [t])).isSome = true
      · refine ⟨1, ?_⟩
        rw [if_pos hex]
        simp [hdash]
      · rw [if_neg hex]
        by_cases hkid : (!(findChildren procs (path ++ [t])).isEmpty) = true
        · rw [if_pos hkid]
          obtain ⟨n, h1, h2, h3⟩ := ih (path ++ [t])
          refine ⟨n + 1, ?_, ?_, ?_⟩
          · rw [h1]; simp
          · rw [h2]; simp
          · intro x hx
            simp only [List.take_succ_cons, List.mem_cons] at hx
            rcases hx with hx | hx
            · subst hx; simpa using hdash
            · exact h3 x hx
        · rw [if_neg hkid]
          by_cases hemp : path.isEmpty = true
          · rw [if_pos hemp]
            obtain ⟨n, h1, h2, h3⟩ := ih (path ++ [t])
            refine ⟨n + 1, ?_, ?_, ?_⟩
            · rw [h1]; simp
            · rw [h2]; simp
            · intro x hx
              simp only [List.take_succ_cons, List.mem_cons] at hx
              rcases hx with hx | hx
              · subst hx; simpa using hdash
              · exact h3 x hx
          · rw [if_neg hemp]
            exact ⟨0, by simp⟩

/-! ## Claim C1: greedy path resolution with exact-match short circuit -/

/-- C1 (amended).  Path resolution is greedy with an exact-match short
circuit: the committed path is a leading chunk of argv containing no
flag-looking token; no proper nonempty prefix of it is an exact procedure
path (the scan stops at the first exact match, even when deeper children
exist); every committed prefix of length at least two is an exact
procedure path or a strict prefix of one (the first token alone is
committed unconditionally, which the counterexample shows); and the
literal scenario of the claim holds: procedures a and a b with input
a b extra resolve to path a with positional tokens b and extra. -/
theorem parseArgs_greedy_shortCircuit (procs : List Procedure) (argv : List String) :
    (∀ k, 0 < k → k < (parseArgs argv procs).path.length →
       isExact procs ((parseArgs argv procs).path.take k) = false) ∧
    (∀ k, 2 ≤ k → k ≤ (parseArgs argv procs).path.length →
       isExact procs ((parseArgs argv procs).path.take k) = true ∨
       hasKids procs ((parseArgs argv procs).path.take k) = true) ∧
    (∃ n, (parseArgs argv procs).path = argv.take n ∧
       ∀ t ∈ (parseArgs argv procs).path, startsWithCh t '-' = false) ∧
    parseArgs ["a", "b", "extra"] [{ path := ["a"] }, { path := ["a", "b"] }] =
      ⟨["a"], ["b", "extra"], []⟩ := by
  have hpath : (parseArgs argv procs).path = (scanPath procs [] argv).1 := rfl
  have hinv := scanPath_prefix_inv procs argv []
    (by intro k hk hle; simp at hle; omega)
    (by intro k h2 hle; simp at hle; omega)
  obtain ⟨n, hc1, -, hc3⟩ := scanPath_consumes procs argv []
  refine ⟨?_, ?_, ?_, rfl⟩
  · intro k hk hlt
    rw [hpath] at hlt ⊢
    exact hinv.1 k hk hlt
  · intro k h2 hle
    rw [hpath] at hle ⊢
    exact hinv.2 k h2 hle
  · refine ⟨n, ?_, ?_⟩
    · rw [hpath, hc1]; simp
    · intro t ht
      rw [hpath, hc1] at ht
      simp at ht
      exact hc3 t ht

/-- C1 counterexample.  With the single procedure a and input z w, the
scan commits the unknown first token z to the path although the candidate
path z neither matches a procedure exactly nor is a strict prefix of one,
refuting the claim that tokens are committed only while the candidate
prefix matches or prefixes a procedure path. -/
theorem parseArgs_firstToken_cex :
    (parseArgs ["z", "w"] [{ path := ["a"] }]).path = ["z"] ∧
    (parseArgs ["z", "w"] [{ path := ["a"] }]).args = ["w"] ∧
    isExact [{ path := ["a"] }] ["z"] = false ∧
    hasKids [{ path := ["a"] }] ["z"] = false :=
  ⟨rfl, rfl, rfl, rfl⟩

/-- Witness for C1: with the single procedure g h and input g h, the
committed path has length two and its proper prefix g is not an exact
match, instantiating the short-circuit invariant. -/
theorem parseArgs_greedy_shortCircuit_witness :
    0 < 1 ∧ 1 < (parseArgs ["g", "h"] [{ path := ["g", "h"] }]).path.length ∧
    isExact [{ path := ["g", "h"] }]
      ((parseArgs ["g", "h"] [{ path := ["g", "h"] }]).path.take 1) = false :=
  ⟨by decide, by decide,
    (parseArgs_greedy_shortCircuit [{ path := ["g", "h"] }] ["g", "h"]).1 1
      (by decide) (by decide)⟩

/-! ## Claim C2: boolean-looking followers of long flags are not consumed -/

/-- C2.  A long flag token without an equals sign whose follower is the
literal true, the literal false or a pure-digit token binds its name to
boolean true without consuming the follower, and the follower (a bare,
non-flag token) is then appended to the positional sequence in its place:
the first equation removes exactly the flag token from the work list, the
second shows the follower is classified positional from any state. -/
theorem longFlag_boolFollower (t next : String) (rest args : List String)
    (opts : List (String × JSVal))
    (hdd : startsDashDash t = true) (heq : eqSplitLong t = none)
    (hnext : next = "true" ∨ next = "false" ∨ isDigits next = true) :
    classifyAux args opts (t :: next :: rest) =
      classifyAux args (aSet opts (strDrop t 2) (.bool true)) (next :: rest) ∧
    ∀ (args2 : List String) (opts2 : List (String × JSVal)),
      classifyAux args2 opts2 (next :: rest) =
        classifyAux (args2 ++ [next]) opts2 rest := by
  have hnd : startsWithCh next '-' = false := by
    rcases hnext with h | h | h
    · subst h; rfl
    · subst h; rfl
    · exact digits_head_not_dash next h
  have hC : ¬(next ≠ "true" ∧ next ≠ "false" ∧ isDigits next = false) := by
    rintro ⟨n1, n2, n3⟩
    rcases hnext with h | h | h
    · exact n1 h
    · exact n2 h
    · rw [h] at n3; cases n3
  constructor
  · rw [classifyAux, if_pos hdd, heq]
    simp only [hnd, hC, if_true, if_false, eq_self_iff_true, if_neg hC]
  · intro args2 opts2
    rw [classifyAux, if_neg (by simp [not_dash_not_dashdash next hnd]),
      if_neg (by simp [hnd])]

/-- Witness for C2: the flag token dash dash flag followed by the digit
token 5 binds flag to boolean true and leaves 5 positional. -/
theorem longFlag_boolFollower_witness :
    classifyAux [] [] ["--flag", "5", "pos"] =
      classifyAux [] (aSet [] (strDrop "--flag" 2) (.bool true)) ["5", "pos"] ∧
    classifyAux [] (aSet [] (strDrop "--flag" 2) (.bool true)) ["5", "pos"] =
      classifyAux ([] ++ ["5"]) (aSet [] (strDrop "--flag" 2) (.bool true)) ["pos"] :=
  ⟨(longFlag_boolFollower "--flag" "5" ["pos"] [] [] (by decide) (by decide)
      (Or.inr (Or.inr (by decide)))).1,
   (longFlag_boolFollower "--flag" "5" ["pos"] [] [] (by decide) (by decide)
      (Or.inr (Or.inr (by decide)))).2 [] (aSet [] (strDrop "--flag" 2) (.bool true))⟩

/-! ## Claim C3: short flags consume any non-flag follower -/

/-- C3 counterexample.  The short flag token dash x followed by the
literal true consumes true as its string value, leaving no positional
token, while the claim predicts boolean true with the follower left
positional; so short-flag value consumption does not match long-flag
value consumption on boolean-looking followers. -/
theorem shortFlag_cex :
    (classifyAux [] [] ["-x", "true"]).1 = [] ∧
    (classifyAux [] [] ["-x", "true"]).2 = [("x", JSVal.str "true")] ∧
    (classifyAux [] [] ["-x", "true"]).1 ≠ ["true"] ∧
    (classifyAux [] [] ["--y", "true"]).1 = ["true"] ∧
    (classifyAux [] [] ["--y", "true"]).2 = [("y", JSVal.bool true)] :=
  ⟨rfl, rfl, by decide, rfl, rfl⟩

/-- C3 (amended).  A two-character short flag applies only the next token
is not a flag rule: any follower not starting with a dash, including the
literals true and false and pure-digit tokens, is consumed as the string
value of the flag; only the no-follower and flag-follower cases yield
boolean true.  This differs from long flags, which additionally refuse
boolean-looking followers. -/
theorem shortFlag_consumes (t next : String) (rest args : List String)
    (opts : List (String × JSVal))
    (h1 : startsWithCh t '-' = true) (hdd : startsDashDash t = false)
    (hlen : strLen t = 2) (hnext : startsWithCh next '-' = false) :
    classifyAux args opts (t :: next :: rest) =
      classifyAux args (aSet opts (strDrop t 1) (.str next)) rest := by
  rw [classifyAux, if_neg (by simp [hdd]), if_pos (by simp [h1, hlen])]
  simp only [hnext, if_true, eq_self_iff_true]

/-- Witness for C3: dash x followed by true consumes true as the value. -/
theorem shortFlag_consumes_witness :
    classifyAux [] [] ["-x", "true"] =
      classifyAux [] (aSet [] (strDrop "-x" 1) (.str "true")) [] :=
  shortFlag_consumes "-x" "true" [] [] [] (by decide) (by decide) (by decide) (by decide)

/-! ## Claim C10: other dash tokens are positional -/

/-- C10.  A token that starts with a dash but is neither a long flag nor a
two-character short flag (for example -abc or a lone dash) ends the path
scan where it stands, and the classifier then appends it, in order, to
the positional sequence rather than treating it as a flag. -/
theorem oddDash_positional (t : String)
    (h1 : startsWithCh t '-' = true) (h2 : startsDashDash t = false)
    (h3 : strLen t ≠ 2) :
    (∀ (procs : List Procedure) (acc rest : List String),
       scanPath procs acc (t :: rest) = (acc, t :: rest)) ∧
    (∀ (args : List String) (opts : List (String × JSVal)) (rest : List String),
       classifyAux args opts (t :: rest) = classifyAux (args ++ [t]) opts rest) := by
  constructor
  · intro procs acc rest
    rw [scanPath, if_pos h1]
  · intro args opts rest
    rw [classifyAux, if_neg (by simp [h2]),
      if_neg (by simp [beq_iff_eq]; intro _; exact h3), ]

/-- Witness for C10: the token -abc ends the path scan and is positional. -/
theorem oddDash_positional_witness :
    scanPath [] [] ["-abc"] = ([], ["-abc"]) ∧
    classifyAux [] [] ["-abc", "z"] = classifyAux ([] ++ ["-abc"]) [] ["z"] :=
  ⟨(oddDash_positional "-abc" (by decide) (by decide) (by decide)).1 [] [] [],
   (oddDash_positional "-abc" (by decide) (by decide) (by decide)).2 [] [] ["z"]⟩

/-! ## Lemmas about object lookup and the short-flag reverse map -/

theorem aGet_aSet_self {α : Type} (m : List (String × α)) (k : String) (v : α) :
    aGet (aSet m k v) k = some v := by
  induction m with
  | nil => simp [aSet, aGet, List.find?_cons]
  | cons p rest ih =>
    by_cases h : (p.1 == k) = true
    · simp [aSet, h, aGet, List.find?_cons]
    · simp only [aSet, h, if_false, Bool.false_eq_true, ite_false]
      simp only [aGet, List.find?_cons, h]
      simpa [aGet] using ih

theorem aGet_aSet_ne {α : Type} (m : List (String × α)) (k k' : String) (v : α)
    (hne : k ≠ k') : aGet (aSet m k v) k' = aGet m k' := by
  induction m with
  | nil => simp [aSet, aGet, List.find?_cons, hne]
  | cons p rest ih =>
    by_cases h : (p.1 == k) = true
    · have hp : p.1 = k := by simpa using h
      simp [aSet, h, aGet, List.find?_cons, hp, hne]
    · simp only [aSet, h, if_false, Bool.false_eq_true, ite_false]
      by_cases h2 : (p.1 == k') = true
      · simp [aGet, List.find?_cons, h2]
      · simp only [aGet, List.find?_cons, h2]
        simpa [aGet] using ih

theorem foldl_aSet_absent (l : List (String × String)) (k : String) :
    ∀ m0 : List (String × String), (∀ p ∈ l, p.2 ≠ k) →
    aGet (l.foldl (fun m p => aSet m p.2 p.1) m0) k = aGet m0 k := by
  induction l with
  | nil => intro m0 _; rfl
  | cons p rest ih =>
    intro m0 habs
    rw [List.foldl_cons,
      ih (aSet m0 p.2 p.1) (fun q hq => habs q (List.mem_cons_of_mem p hq))]
    exact aGet_aSet_ne m0 p.2 k p.1 (habs p (List.mem_cons_self p rest))

theorem foldl_aSet_lookup (l : List (String × String)) (k : String) :
    ∀ m0 : List (String × String), (l.map (·.2)).Nodup →
    aGet (l.foldl (fun m p => aSet m p.2 p.1) m0) k =
      (match l.find? (fun p => p.2 == k) with
       | some p => some p.1
       | none => aGet m0 k) := by
  induction l with
  | nil => intro m0 _; rfl
  | cons p rest ih =>
    intro m0 hnd
    rw [List.map_cons, List.nodup_cons] at hnd
    rw [List.foldl_cons, List.find?_cons]
    by_cases hpk : (p.2 == k) = true
    · simp only [hpk]
      have hp : p.2 = k := by simpa using hpk
      have habs : ∀ q ∈ rest, q.2 ≠ k := by
        intro q hq hqk
        have hmem : p.2 ∈ rest.map (·.2) := by
          rw [hp, ← hqk]
          exact List.mem_map_of_mem (·.2) hq
        exact hnd.1 hmem
      rw [foldl_aSet_absent rest k (aSet m0 p.2 p.1) habs, hp,
        aGet_aSet_self m0 k p.1]
    · have hpk' : (p.2 == k) = false := by simpa using hpk
      simp only [hpk']
      rw [ih (aSet m0 p.2 p.1) hnd.2]
      cases hfind : rest.find? (fun q => q.2 == k) with
      | some q => rfl
      | none =>
        simp only []
        exact aGet_aSet_ne m0 p.2 k p.1 (by simpa using hpk')

theorem buildShortToField_lookup (shorts : List (String × String)) (k : String)
    (hnd : (shorts.map (·.2)).Nodup) :
    aGet (buildShortToField shorts) k =
      (shorts.find? (fun p => p.2 == k)).map (·.1) := by
  rw [buildShortToField, foldl_aSet_lookup shorts k [] hnd]
  cases shorts.find? (fun p => p.2 == k) with
  | some p => rfl
  | none => rfl

/-! ## Claim C4: canonical field name resolution in the binder -/

/-- C4.  With no positional fields declared (as in the scenarios of the
claim), the binder binds every flag entry under exactly the field name
given by the specification resolution rule: a declared short-flag alias
maps to its field, a hyphenated key is converted kebab-to-camelCase, any
other key passes verbatim.  Stated under the configuration invariants of
the metadata model (distinct aliases, nonempty field names).  The
concrete conjuncts are the literal scenarios of the claim: shorts
skipGit to g with raw flags g true binds skipGit to true, and raw key
skip-git with no short match binds field skipGit. -/
theorem parseFromSchema_fieldResolution (shorts : List (String × String))
    (opts : List (String × JSVal))
    (hnd : (shorts.map (·.2)).Nodup) (hne : ∀ p ∈ shorts, p.1 ≠ "") :
    parseFromSchema { array := [], options := opts } { shorts := shorts } =
      opts.foldl (fun acc kv =>
        aSet acc (resolveFieldSpec shorts kv.1) (coerceValue kv.2)) [] ∧
    parseFromSchema { array := [], options := [("g", .bool true)] }
        { shorts := [("skipGit", "g")] } = [("skipGit", JSVal.bool true)] ∧
    resolveFieldSpec [] "skip-git" = "skipGit" ∧
    parseFromSchema { array := [], options := [("skip-git", .str "x")] } {} =
      [("skipGit", JSVal.str "x")] := by
  refine ⟨?_, rfl, rfl, rfl⟩
  have hstep : ∀ kv : String × JSVal,
      (match aGet (buildShortToField shorts) kv.1 with
       | some f => if f = "" then fallbackName kv.1 else f
       | none => fallbackName kv.1) = resolveFieldSpec shorts kv.1 := by
    intro kv
    rw [buildShortToField_lookup shorts kv.1 hnd]
    cases hfind : shorts.find? (fun p => p.2 == kv.1) with
    | some p =>
      have hp : p ∈ shorts := List.mem_of_find?_eq_some hfind
      simp only [Option.map_some']
      rw [if_neg (hne p hp)]
      rw [resolveFieldSpec, hfind]
    | none =>
      simp only [Option.map_none']
      rw [resolveFieldSpec, hfind]
  have hcong : ∀ (l : List (String × JSVal)) (acc : List (String × JSVal)),
      l.foldl (fun input kv =>
        if ([] : List String).contains kv.1 ∧ (aGet input kv.1).isSome then input
        else aSet input
          (match aGet (buildShortToField shorts) kv.1 with
           | some f => if f = "" then fallbackName kv.1 else f
           | none => fallbackName kv.1) (coerceValue kv.2)) acc =
      l.foldl (fun acc kv =>
        aSet acc (resolveFieldSpec shorts kv.1) (coerceValue kv.2)) acc := by
    intro l
    induction l with
    | nil => intro acc; rfl
    | cons kv rest ih =>
      intro acc
      rw [List.foldl_cons, List.foldl_cons]
      rw [if_neg (by simp)]
      rw [hstep kv]
      exact ih _
  exact hcong opts []

/-- Witness for C4: shorts skipGit to g, raw flags skip-git x and g true,
binder output equals the specification-resolved fold. -/
theorem parseFromSchema_fieldResolution_witness :
    (([("skipGit", "g")] : List (String × String)).map (·.2)).Nodup ∧
    parseFromSchema
        { array := [],
          options := [("skip-git", JSVal.str "x"), ("g", JSVal.bool true)] }
        { shorts := [("skipGit", "g")] } =
      ([("skip-git", JSVal.str "x"), ("g", JSVal.bool true)] :
          List (String × JSVal)).foldl
        (fun acc kv =>
          aSet acc (resolveFieldSpec [("skipGit", "g")] kv.1) (coerceValue kv.2)) [] :=
  ⟨by decide,
    (parseFromSchema_fieldResolution [("skipGit", "g")]
      [("skip-git", JSVal.str "x"), ("g", JSVal.bool true)]
      (by decide) (by decide)).1⟩

/-! ## Lemmas about the Number conversion on non-numeric heads -/

theorem dropWhile_append_last {p : Char → Bool} (c : Char) (h : p c = false) :
    ∀ l : List Char, ∃ l', List.dropWhile p (l ++ [c]) = l' ++ [c] := by
  intro l
  induction l with
  | nil => exact ⟨[], by simp [List.dropWhile_cons, h]⟩
  | cons a rest ih =>
    by_cases ha : p a = true
    · obtain ⟨l', hl'⟩ := ih
      exact ⟨l', by simp [List.dropWhile_cons, ha, hl']⟩
    · exact ⟨a :: rest, by simp [List.dropWhile_cons, ha]⟩

theorem trimChars_cons_head (c : Char) (cs : List Char) (h : isJsWs c = false) :
    ∃ tl, trimChars (c :: cs) = c :: tl := by
  unfold trimChars
  rw [List.dropWhile_cons, if_neg (by simp [h])]
  obtain ⟨l', hl'⟩ := dropWhile_append_last c h cs.reverse
  rw [show (c :: cs).reverse = cs.reverse ++ [c] by simp]
  rw [hl']
  exact ⟨l'.reverse, by simp⟩

theorem parseMantissa_bad_head (c : Char) (l : List Char)
    (h1 : c.isDigit = false) (h2 : c ≠ '.') : parseMantissa (c :: l) = none := by
  unfold parseMantissa
  simp only [List.takeWhile_cons, List.dropWhile_cons, h1, Bool.false_eq_true, if_false,
    ite_false]
  split
  · rename_i heq
    exact absurd heq (by simp)
  · rename_i frac heq
    injection heq with hc _
    exact absurd hc h2
  · rfl

theorem parseUnsignedStrNum_bad_head (c : Char) (l : List Char)
    (hd : c.isDigit = false) (hdot : c ≠ '.') (hI : c ≠ 'I')
    (he : c ≠ 'e') (hE : c ≠ 'E') :
    parseUnsignedStrNum (c :: l) = none := by
  unfold parseUnsignedStrNum
  rw [if_neg (by
    intro h
    rw [show "Infinity".data = 'I' :: "nfinity".data from rfl] at h
    injection h with hc _
    exact hI hc)]
  have hexp : isExpChar c = false := by
    unfold isExpChar
    simp [he, hE]
  rw [List.findIdx?_cons, if_neg (by simp [hexp]), List.findIdx?_succ]
  cases hidx : l.findIdx? isExpChar with
  | none =>
    simp only [Option.map_none']
    rw [parseMantissa_bad_head c l hd hdot]
    rfl
  | some j =>
    simp only [Option.map_some']
    rw [List.take_succ_cons, parseMantissa_bad_head c (l.take j) hd hdot]

theorem parseStrNum_bad_head (c : Char) (l : List Char)
    (hd : c.isDigit = false) (hdot : c ≠ '.') (hI : c ≠ 'I')
    (he : c ≠ 'e') (hE : c ≠ 'E') (hplus : c ≠ '+') (hminus : c ≠ '-') :
    parseStrNum (c :: l) = none := by
  have h0 : c ≠ '0' := by
    intro h
    subst h
    simp at hd
  unfold parseStrNum
  split <;>
    first
      | (rename_i heq
         injection heq with hc hrest
         first
           | exact absurd hc hplus
           | exact absurd hc hminus
           | exact absurd hc h0)
      | exact parseUnsignedStrNum_bad_head c l hd hdot hI he hE

theorem jsNumber_bad_head (s : String) (c : Char) (cs : List Char)
    (hdata : s.data = c :: cs)
    (hws : isJsWs c = false) (hd : c.isDigit = false) (hdot : c ≠ '.')
    (hI : c ≠ 'I') (he : c ≠ 'e') (hE : c ≠ 'E')
    (hplus : c ≠ '+') (hminus : c ≠ '-') :
    jsNumber s = .nan := by
  unfold jsNumber
  rw [hdata]
  obtain ⟨tl, htl⟩ := trimChars_cons_head c cs hws
  rw [htl]
  rw [if_neg (by simp)]
  rw [parseStrNum_bad_head c tl hd hdot hI he hE hplus hminus]

theorem jsonBraced_head (s : String) (h : jsonBraced s = true) :
    ∃ cs, s.data = '\x7b' :: cs ∨ s.data = '[' :: cs := by
  unfold jsonBraced startsWithCh at h
  cases hdata : s.data with
  | nil => rw [hdata] at h; simp at h
  | cons c cs =>
    rw [hdata] at h
    simp only [Bool.or_eq_true, Bool.and_eq_true] at h
    rcases h with ⟨h1, -⟩ | ⟨h1, -⟩
    · have hc : c = '\x7b' := by simpa using h1
      exact ⟨cs, Or.inl (by rw [hc])⟩
    · have hc : c = '[' := by simpa using h1
      exact ⟨cs, Or.inr (by rw [hc])⟩

theorem jsNumber_of_braced (s : String) (h : jsonBraced s = true) :
    jsNumber s = .nan := by
  obtain ⟨cs, hcs | hcs⟩ := jsonBraced_head s h
  · exact jsNumber_bad_head s '\x7b' cs hcs (by decide) (by decide) (by decide)
      (by decide) (by decide) (by decide) (by decide) (by decide)
  · exact jsNumber_bad_head s '[' cs hcs (by decide) (by decide) (by decide)
      (by decide) (by decide) (by decide) (by decide) (by decide)

/-! ## Claim C5: value coercion -/

/-- C5 (amended).  coerceValue passes every non-string value through
unchanged (so coercion is idempotent on booleans and numbers); maps the
literal strings true and false to booleans; maps a string accepted by the
JS Number conversion (result not NaN, and not only whitespace) to that
number, where the accepted values include the infinite results Infinity
and -Infinity, not only finite numbers; parses a string bounded by
matching braces or brackets as JSON, keeping the original string when the
parse fails; and leaves every other string unchanged. -/
theorem coerceValue_spec :
    (∀ v, isStringV v = false → coerceValue v = v) ∧
    coerceValue (.str "true") = .bool true ∧
    coerceValue (.str "false") = .bool false ∧
    (∀ s, jsNumber s ≠ .nan → jsTrim s ≠ "" → s ≠ "true" → s ≠ "false" →
      coerceValue (.str s) = .num (jsNumber s)) ∧
    (∀ s, jsonBraced s = true →
      coerceValue (.str s) =
        (match jsonTryParse s with
         | some j => JSVal.json j
         | none => JSVal.str s)) ∧
    (∀ s, s ≠ "true" → s ≠ "false" → (jsNumber s = .nan ∨ jsTrim s = "") →
      jsonBraced s = false → coerceValue (.str s) = .str s) := by
  refine ⟨?_, rfl, rfl, ?_, ?_, ?_⟩
  · intro v h
    cases v with
    | undefined => rfl
    | null => rfl
    | bool b => rfl
    | num n => rfl
    | json j => rfl
    | str s => simp [isStringV] at h
  · intro s hnum htrim ht hf
    show (if s = "true" then JSVal.bool true
      else if s = "false" then JSVal.bool false
      else
        let num := jsNumber s
        if num ≠ JSNum.nan ∧ jsTrim s ≠ "" then JSVal.num num
        else if jsonBraced s = true then
          match jsonTryParse s with
          | some j => JSVal.json j
          | none => JSVal.str s
        else JSVal.str s) = JSVal.num (jsNumber s)
    rw [if_neg ht, if_neg hf, if_pos ⟨hnum, htrim⟩]
  · intro s h
    have ht : s ≠ "true" := by
      intro hs
      rw [hs] at h
      exact absurd h (by decide)
    have hf : s ≠ "false" := by
      intro hs
      rw [hs] at h
      exact absurd h (by decide)
    show (if s = "true" then JSVal.bool true
      else if s = "false" then JSVal.bool false
      else
        let num := jsNumber s
        if num ≠ JSNum.nan ∧ jsTrim s ≠ "" then JSVal.num num
        else if jsonBraced s = true then
          match jsonTryParse s with
          | some j => JSVal.json j
          | none => JSVal.str s
        else JSVal.str s) = _
    rw [if_neg ht, if_neg hf,
      if_neg (fun hc => hc.1 (jsNumber_of_braced s h)), if_pos h]
  · intro s ht hf hnum hbr
    show (if s = "true" then JSVal.bool true
      else if s = "false" then JSVal.bool false
      else
        let num := jsNumber s
        if num ≠ JSNum.nan ∧ jsTrim s ≠ "" then JSVal.num num
        else if jsonBraced s = true then
          match jsonTryParse s with
          | some j => JSVal.json j
          | none => JSVal.str s
        else JSVal.str s) = JSVal.str s
    rw [if_neg ht, if_neg hf,
      if_neg (by
        rintro ⟨h1, h2⟩
        rcases hnum with h | h
        · exact h1 h
        · exact h2 h),
      if_neg (by simp [hbr])]

/-- C5 counterexample.  The string Infinity is not a finite number, is not
brace bounded and is not a boolean literal, so the claim says it stays a
string; coerceValue maps it to the number positive infinity, because the
source condition is only that Number does not yield NaN. -/
theorem coerceValue_infinity_cex :
    coerceValue (.str "Infinity") = .num (.inf false) ∧
    coerceValue (.str "Infinity") ≠ .str "Infinity" := by
  constructor
  · rfl
  · intro h
    rw [show coerceValue (.str "Infinity") = .num (.inf false) from rfl] at h
    exact JSVal.noConfusion h

/-- Witness for C5: a numeric string 42 coerces through Number, a bracket
bounded string parses as JSON, and an inert string stays itself. -/
theorem coerceValue_spec_witness :
    (jsNumber "42" ≠ JSNum.nan ∧
      coerceValue (.str "42") = .num (jsNumber "42")) ∧
    (jsonBraced "[1]" = true ∧
      coerceValue (.str "[1]") =
        (match jsonTryParse "[1]" with
         | some j => JSVal.json j
         | none => JSVal.str "[1]")) ∧
    coerceValue (.str "zebra") = .str "zebra" :=
  ⟨⟨by decide,
     coerceValue_spec.2.2.2.1 "42" (by decide) (by decide) (by decide) (by decide)⟩,
   ⟨by decide, coerceValue_spec.2.2.2.2.1 "[1]" (by decide)⟩,
   coerceValue_spec.2.2.2.2.2 "zebra" (by decide) (by decide)
     (Or.inl (by decide)) (by decide)⟩

/-! ## Reduction lemmas for the run model -/

theorem runModel_local (env : Env) (st : FsState) (procs : List Procedure)
    (argv path args : List String) (options : List (String × JSVal))
    (hv1 : argv.contains "--version" = false) (hv2 : argv.contains "-v" = false)
    (hsrv : argv.contains "--server" = false)
    (hparse : parseArgs argv procs = ⟨path, args, options⟩)
    (hnos : st.lockfile = none ∨ argv.contains "--local" = true) :
    runModel env st procs argv =
      runLocalStages env st procs path args options false := by
  unfold runModel
  rw [hv1, hv2, hsrv, hparse]
  simp only [Bool.or_self, if_false, Bool.false_eq_true, ite_false]
  rcases hnos with hlock | hlocal
  · by_cases hcond : (!(argv.contains "--local") && !(Parsed.mk path args options).path.isEmpty
        && !(jsTruthyOpt (aGet (Parsed.mk path args options).options "help"))
        && !(jsTruthyOpt (aGet (Parsed.mk path args options).options "h"))) = true
    · rw [if_pos hcond]
      unfold tryClientModeM
      rw [hlock]
    · rw [if_neg hcond]
  · have hC : (!(argv.contains "--local") && !(Parsed.mk path args options).path.isEmpty
        && !(jsTruthyOpt (aGet (Parsed.mk path args options).options "help"))
        && !(jsTruthyOpt (aGet (Parsed.mk path args options).options "h"))) = false := by
      rw [hlocal]
      rfl
    rw [if_neg (by rw [hC]; exact Bool.false_ne_true)]

theorem runLocalStages_invalidFormat (env : Env) (st : FsState)
    (procs : List Procedure) (path args : List String)
    (options : List (String × JSVal)) (rc : Bool) (proc : Procedure) (fv : JSVal)
    (hjson : aGet options "json" = none)
    (hpath : path.isEmpty = false)
    (hhelp : aGet options "help" = none) (hh : aGet options "h" = none)
    (hproc : findProcedure procs path = some proc)
    (hfmt : aGet options "format" = some fv)
    (htr : jsTruthy fv = true) (hbad : isValidFormat fv = false) :
    runLocalStages env st procs path args options rc =
      ({ exitCode := 1,
         errors := ["Invalid format: " ++ jsDisplay fv ++
           ". Valid formats: text, json, table, streaming"],
         remoteCalled := rc }, st) := by
  unfold runLocalStages
  rw [hjson, hhelp, hh, hproc, hfmt]
  simp [hpath, htr, hbad, jsTruthyOpt]

theorem runLocalStages_localOk (env : Env) (st : FsState)
    (procs : List Procedure) (path args : List String)
    (options : List (String × JSVal)) (rc : Bool) (proc : Procedure) (v : JSVal)
    (hjson : aGet options "json" = none)
    (hpath : path.isEmpty = false)
    (hhelp : aGet options "help" = none) (hh : aGet options "h" = none)
    (hproc : findProcedure procs path = some proc)
    (hfmt : aGet options "format" = none)
    (hval : proc.inputParse = none)
    (hloc : env.localExec = .ok v) :
    runLocalStages env st procs path args options rc =
      ({ localCalled := true, remoteCalled := rc,
         formatted := some (v, chosenFormat options proc.meta) }, st) := by
  unfold runLocalStages
  rw [hjson, hhelp, hh, hproc, hfmt]
  simp [hpath, jsTruthyOpt, validateInput, hval, hloc]

theorem runModel_client (env : Env) (st : FsState) (procs : List Procedure)
    (argv path args : List String) (options : List (String × JSVal))
    (lf : Lockfile) (proc : Procedure)
    (hv1 : argv.contains "--version" = false) (hv2 : argv.contains "-v" = false)
    (hsrv : argv.contains "--server" = false)
    (hparse : parseArgs argv procs = ⟨path, args, options⟩)
    (hlocal : argv.contains "--local" = false)
    (hpath : path.isEmpty = false)
    (hhelp : aGet options "help" = none) (hh : aGet options "h" = none)
    (hlock : st.lockfile = some lf)
    (halive : env.pidAlive lf.pid = true)
    (hproc : findProcedure procs path = some proc)
    (hval : proc.inputParse = none) :
    runModel env st procs argv =
      (match env.remote with
       | .ok v => ({ remoteCalled := true,
                     formatted := some (v, chosenFormat options (metaOf procs path)) }, st)
       | .appFailure _ => runLocalStages env st procs path args options true
       | .transportFailure _ => runLocalStages env st procs path args options true) := by
  unfold runModel
  rw [hv1, hv2, hsrv, hparse]
  have hC : (!(argv.contains "--local") && !(Parsed.mk path args options).path.isEmpty
      && !(jsTruthyOpt (aGet (Parsed.mk path args options).options "help"))
      && !(jsTruthyOpt (aGet (Parsed.mk path args options).options "h"))) = true := by
    rw [hlocal]
    show (!false && !path.isEmpty && !(jsTruthyOpt (aGet options "help"))
      && !(jsTruthyOpt (aGet options "h"))) = true
    rw [hpath, hhelp, hh]
    rfl
  simp only [Bool.or_self, Bool.false_eq_true, if_false, ite_false]
  rw [if_pos hC]
  unfold tryClientModeM
  rw [hlock]
  simp only [isServerAliveM, halive, if_true]
  rw [hproc]
  simp only [validateInput, hval]
  cases henv : env.remote with
  | ok v => rfl
  | appFailure m => rfl
  | transportFailure m => rfl

theorem runModel_deadServer (env : Env) (st : FsState) (procs : List Procedure)
    (argv path args : List String) (options : List (String × JSVal))
    (lf : Lockfile)
    (hv1 : argv.contains "--version" = false) (hv2 : argv.contains "-v" = false)
    (hsrv : argv.contains "--server" = false)
    (hparse : parseArgs argv procs = ⟨path, args, options⟩)
    (hlocal : argv.contains "--local" = false)
    (hpath : path.isEmpty = false)
    (hhelp : aGet options "help" = none) (hh : aGet options "h" = none)
    (hlock : st.lockfile = some lf)
    (hdead : env.pidAlive lf.pid = false) :
    runModel env st procs argv =
      runLocalStages env ⟨none⟩ procs path args options false := by
  unfold runModel
  rw [hv1, hv2, hsrv, hparse]
  have hC : (!(argv.contains "--local") && !(Parsed.mk path args options).path.isEmpty
      && !(jsTruthyOpt (aGet (Parsed.mk path args options).options "help"))
      && !(jsTruthyOpt (aGet (Parsed.mk path args options).options "h"))) = true := by
    rw [hlocal]
    show (!false && !path.isEmpty && !(jsTruthyOpt (aGet options "help"))
      && !(jsTruthyOpt (aGet options "h"))) = true
    rw [hpath, hhelp, hh]
    rfl
  simp only [Bool.or_self, Bool.false_eq_true, if_false, ite_false]
  rw [if_pos hC]
  unfold tryClientModeM
  rw [hlock]
  simp only [isServerAliveM, hdead, Bool.false_eq_true, if_false, ite_false]

/-! ## Concrete scenarios for the dispatch claims -/

/-- One registered procedure at path a, no metadata, no schema. -/
def procsDemo : List Procedure := [{ path := ["a"] }]

/-- Environment with no live process: every pid probe fails, the remote
side is unreachable, local execution succeeds. -/
def envIdle : Env :=
  { pidAlive := fun _ => false, remote := .transportFailure "connection refused",
    localExec := .ok (.str "local result"), execResult := .ok .null }

/-- Environment with a live server whose remote call succeeds. -/
def envLive : Env :=
  { pidAlive := fun _ => true, remote := .ok (.str "remote result"),
    localExec := .ok (.str "local result"), execResult := .ok .null }

/-- Environment with a live server whose remote call completes but
reports an application-level failure. -/
def envAppFail : Env :=
  { pidAlive := fun _ => true, remote := .appFailure "remote handler failed",
    localExec := .ok (.str "local result"), execResult := .ok .null }

/-- No persisted server handle. -/
def stEmpty : FsState := ⟨none⟩

/-- A persisted server handle recording pid 7. -/
def stHandle : FsState := ⟨some ⟨7, "http://127.0.0.1:3000"⟩⟩

/-! ## Claim C6: unknown command report and exit code -/

/-- C6.  On an argv whose resolved path matches neither an exact procedure
nor any group, run prints the unknown-command report with the suggestion
to view top-level help, but returns without setting the process exit
code, so the process exits 0, not 1 as the claim states; no handler is
invoked.  This evaluates the embedded run at the failing input zzz
against the procedure set containing only the path a. -/
theorem unknownCommand_exitCode_zero :
    (runModel envIdle stEmpty procsDemo ["zzz"]).1.errors =
      ["Unknown command: mark zzz"] ∧
    (runModel envIdle stEmpty procsDemo ["zzz"]).1.infos =
      ["Run \x27mark --help\x27 for available commands."] ∧
    (runModel envIdle stEmpty procsDemo ["zzz"]).1.exitCode = 0 ∧
    (runModel envIdle stEmpty procsDemo ["zzz"]).1.localCalled = false ∧
    (runModel envIdle stEmpty procsDemo ["zzz"]).1.remoteCalled = false :=
  ⟨rfl, rfl, rfl, rfl, rfl⟩

/-! ## Claim C7: invalid format override -/

/-- C7 counterexample.  With a live discovered server, the same invocation
a dash dash format bogus is executed remotely before the format value is
ever validated: the remote call runs, the result is formatted under the
invalid format tag, there is no usage error and the exit code is 0. -/
theorem invalidFormat_remote_cex :
    (runModel envLive stHandle procsDemo ["a", "--format", "bogus"]).1.remoteCalled
      = true ∧
    (runModel envLive stHandle procsDemo ["a", "--format", "bogus"]).1.exitCode = 0 ∧
    (runModel envLive stHandle procsDemo ["a", "--format", "bogus"]).1.errors = [] ∧
    (runModel envLive stHandle procsDemo ["a", "--format", "bogus"]).1.formatted =
      some (.str "remote result", .str "bogus") :=
  ⟨rfl, rfl, rfl, rfl⟩

/-- C7 (amended).  When no live server is used (no persisted handle, or
force-local), an invocation that resolves to an existing handler and
carries a truthy format override outside text, json, table and streaming
yields the usage error with exit code 1, and the handler is invoked
neither locally nor remotely; with a live discovered server the command
is instead executed remotely before format validation, as the
counterexample shows. -/
theorem invalidFormat_usageError (env : Env) (st : FsState)
    (procs : List Procedure) (argv path args : List String)
    (options : List (String × JSVal)) (proc : Procedure) (fv : JSVal)
    (hv1 : argv.contains "--version" = false) (hv2 : argv.contains "-v" = false)
    (hsrv : argv.contains "--server" = false)
    (hparse : parseArgs argv procs = ⟨path, args, options⟩)
    (hnos : st.lockfile = none ∨ argv.contains "--local" = true)
    (hjson : aGet options "json" = none)
    (hpath : path.isEmpty = false)
    (hhelp : aGet options "help" = none) (hh : aGet options "h" = none)
    (hproc : findProcedure procs path = some proc)
    (hfmt : aGet options "format" = some fv)
    (htr : jsTruthy fv = true) (hbad : isValidFormat fv = false) :
    runModel env st procs argv =
      ({ exitCode := 1,
         errors := ["Invalid format: " ++ jsDisplay fv ++
           ". Valid formats: text, json, table, streaming"] }, st) := by
  rw [runModel_local env st procs argv path args options hv1 hv2 hsrv hparse hnos]
  exact runLocalStages_invalidFormat env st procs path args options false proc fv
    hjson hpath hhelp hh hproc hfmt htr hbad

/-- Witness for C7: with no handle on disk, a dash dash format bogus on
the resolvable command a exits 1 with the usage error and no handler
invocation. -/
theorem invalidFormat_usageError_witness :
    aGet [("format", JSVal.str "bogus")] "format" = some (JSVal.str "bogus") ∧
    runModel envIdle stEmpty procsDemo ["a", "--format", "bogus"] =
      ({ exitCode := 1,
         errors := ["Invalid format: " ++ jsDisplay (JSVal.str "bogus") ++
           ". Valid formats: text, json, table, streaming"] }, stEmpty) :=
  ⟨rfl,
   invalidFormat_usageError envIdle stEmpty procsDemo ["a", "--format", "bogus"]
     ["a"] [] [("format", JSVal.str "bogus")] { path := ["a"] } (JSVal.str "bogus")
     (by decide) (by decide) (by decide) rfl (Or.inl rfl) rfl rfl rfl rfl rfl rfl
     (by decide) (by decide)⟩

/-! ## Claim C8: remote application failure falls back to local -/

/-- C8 counterexample.  With a live server whose remote call completes
reporting an application-level failure, the invocation a runs the remote
call, swallows the failure (no error line is printed, exit code 0) and
executes the handler again locally, reporting the local result as the
outcome; the claim states the remote failure is reported and the handler
is not executed again locally. -/
theorem remoteAppFailure_cex :
    (runModel envAppFail stHandle procsDemo ["a"]).1.remoteCalled = true ∧
    (runModel envAppFail stHandle procsDemo ["a"]).1.localCalled = true ∧
    (runModel envAppFail stHandle procsDemo ["a"]).1.errors = [] ∧
    (runModel envAppFail stHandle procsDemo ["a"]).1.exitCode = 0 ∧
    (runModel envAppFail stHandle procsDemo ["a"]).1.formatted =
      some (.str "local result", .str "text") :=
  ⟨rfl, rfl, rfl, rfl, rfl⟩

/-- C8 (amended).  A remote call that completes but reports an
application-level failure is treated exactly like a transport failure:
the catch-all in tryClientMode maps it to the null result, the failure
message is not reported (no error output, exit code 0 when the local run
succeeds), and the handler is executed again locally, whose result
becomes the reported outcome. -/
theorem remoteAppFailure_localRetry (env : Env) (st : FsState)
    (procs : List Procedure) (argv path args : List String)
    (options : List (String × JSVal)) (lf : Lockfile) (proc : Procedure)
    (msg : String) (v : JSVal)
    (hv1 : argv.contains "--version" = false) (hv2 : argv.contains "-v" = false)
    (hsrv : argv.contains "--server" = false)
    (hparse : parseArgs argv procs = ⟨path, args, options⟩)
    (hlocal : argv.contains "--local" = false)
    (hpath : path.isEmpty = false)
    (hhelp : aGet options "help" = none) (hh : aGet options "h" = none)
    (hlock : st.lockfile = some lf)
    (halive : env.pidAlive lf.pid = true)
    (hproc : findProcedure procs path = some proc)
    (hval : proc.inputParse = none)
    (hrem : env.remote = .appFailure msg)
    (hjson : aGet options "json" = none)
    (hfmt : aGet options "format" = none)
    (hloc : env.localExec = .ok v) :
    runModel env st procs argv =
      ({ localCalled := true, remoteCalled := true,
         formatted := some (v, chosenFormat options proc.meta) }, st) := by
  rw [runModel_client env st procs argv path args options lf proc
    hv1 hv2 hsrv hparse hlocal hpath hhelp hh hlock halive hproc hval]
  rw [hrem]
  exact runLocalStages_localOk env st procs path args options true proc v
    hjson hpath hhelp hh hproc hfmt hval hloc

/-- Witness for C8: the concrete application-failure environment retries
locally and reports the local result. -/
theorem remoteAppFailure_localRetry_witness :
    envAppFail.remote = .appFailure "remote handler failed" ∧
    runModel envAppFail stHandle procsDemo ["a"] =
      ({ localCalled := true, remoteCalled := true,
         formatted := some (.str "local result",
           chosenFormat [] ({ path := ["a"] } : Procedure).meta) }, stHandle) :=
  ⟨rfl,
   remoteAppFailure_localRetry envAppFail stHandle procsDemo ["a"] ["a"] [] []
     ⟨7, "http://127.0.0.1:3000"⟩ { path := ["a"] } "remote handler failed"
     (.str "local result")
     (by decide) (by decide) (by decide) rfl (by decide) rfl rfl rfl rfl rfl rfl rfl
     rfl rfl rfl rfl⟩

/-! ## Claim C9: stale handle cleanup -/

/-- C9.  When the persisted handle records a process id that does not
exist, the liveness probe reports dead and deletes the handle as its side
effect; the invocation then executes the command locally (no remote call,
local handler reached, exit code 0 on success) and leaves no handle on
disk; and a second invocation from the handle-free state executes locally
with the same outcome, so the cleanup is idempotent and self-healing. -/
theorem staleHandle_cleanup (env : Env) (st : FsState)
    (procs : List Procedure) (argv path args : List String)
    (options : List (String × JSVal)) (lf : Lockfile) (proc : Procedure) (v : JSVal)
    (hv1 : argv.contains "--version" = false) (hv2 : argv.contains "-v" = false)
    (hsrv : argv.contains "--server" = false)
    (hparse : parseArgs argv procs = ⟨path, args, options⟩)
    (hlocal : argv.contains "--local" = false)
    (hpath : path.isEmpty = false)
    (hhelp : aGet options "help" = none) (hh : aGet options "h" = none)
    (hlock : st.lockfile = some lf)
    (hdead : env.pidAlive lf.pid = false)
    (hjson : aGet options "json" = none)
    (hproc : findProcedure procs path = some proc)
    (hfmt : aGet options "format" = none)
    (hval : proc.inputParse = none)
    (hloc : env.localExec = .ok v) :
    isServerAliveM env lf st = (false, ⟨none⟩) ∧
    runModel env st procs argv =
      ({ localCalled := true,
         formatted := some (v, chosenFormat options proc.meta) }, ⟨none⟩) ∧
    runModel env ⟨none⟩ procs argv =
      ({ localCalled := true,
         formatted := some (v, chosenFormat options proc.meta) }, ⟨none⟩) := by
  refine ⟨?_, ?_, ?_⟩
  · unfold isServerAliveM
    rw [hdead]
    rfl
  · rw [runModel_deadServer env st procs argv path args options lf
      hv1 hv2 hsrv hparse hlocal hpath hhelp hh hlock hdead]
    exact runLocalStages_localOk env ⟨none⟩ procs path args options false proc v
      hjson hpath hhelp hh hproc hfmt hval hloc
  · rw [runModel_local env ⟨none⟩ procs argv path args options
      hv1 hv2 hsrv hparse (Or.inl rfl)]
    exact runLocalStages_localOk env ⟨none⟩ procs path args options false proc v
      hjson hpath hhelp hh hproc hfmt hval hloc

/-- Witness for C9: the stale handle recording pid 7 in an environment
where no pid exists is cleaned up and both invocations run locally. -/
theorem staleHandle_cleanup_witness :
    envIdle.pidAlive 7 = false ∧
    isServerAliveM envIdle ⟨7, "http://127.0.0.1:3000"⟩ stHandle = (false, ⟨none⟩) ∧
    runModel envIdle stHandle procsDemo ["a"] =
      ({ localCalled := true,
         formatted := some (.str "local result",
           chosenFormat [] ({ path := ["a"] } : Procedure).meta) }, ⟨none⟩) :=
  ⟨rfl,
   (staleHandle_cleanup envIdle stHandle procsDemo ["a"] ["a"] [] []
     ⟨7, "http://127.0.0.1:3000"⟩ { path := ["a"] } (.str "local result")
     (by decide) (by decide) (by decide) rfl (by decide) rfl rfl rfl rfl rfl rfl rfl
     rfl rfl rfl).1,
   (staleHandle_cleanup envIdle stHandle procsDemo ["a"] ["a"] [] []
     ⟨7, "http://127.0.0.1:3000"⟩ { path := ["a"] } (.str "local result")
     (by decide) (by decide) (by decide) rfl (by decide) rfl rfl rfl rfl rfl rfl rfl
     rfl rfl rfl).2.1⟩
